import Mathlib

/-!
Shallow embedding of the replication engine of `local_db_sync`
(`src/unnamed/part_002`, `src/src/lib/services/databases.ts`,
`src/unnamed/part_007`), together with proofs about it.

The embedding models the MongoDB driver objects the code manipulates
(database handles, cursors, unordered bulk operations, collection options,
indexes) as pure data; stateful operations become explicit state passing,
and rejected promises become `Except` errors.
-/

namespace LocalDbSync

/-- Modelled from the spec: `LOCAL_DB_URI` is the one fixed, process-wide
base address of the destination (local) store, imported by the engine from
the config module (`../../config`, not present under `src/`); supplied as
process configuration, never computed. -/
def LOCAL_DB_URI : String := "mongodb://localhost:27017"

/-- A live database handle, as produced by `connectToMongoDB` in
`src/unnamed/part_002`: `MongoClient.connect(connectionString)` followed by
`client.db(dbName)`.  The handle is determined by the connection string and
the database name it was opened with.  The `dbName` argument is kept as an
`Option` so that a JavaScript `undefined` field passed through an untagged
union is representable. -/
structure Db where
  uri : String
  dbName : Option String
deriving DecidableEq, Repr

/-- `connectToMongoDB` (`src/unnamed/part_002`): opens the database handle
for the given connection string and database name. -/
def connectToMongoDB (connectionString : String) (dbName : Option String) : Db :=
  { uri := connectionString, dbName := dbName }

/-- The runtime shape of an `ISyncParams` value (`src/unnamed/part_002`):
TypeScript erases the union `ICoreSyncParams | IPopulatedSyncParams`, so at
runtime the object simply may or may not carry each field; absent fields
read as `undefined` (here `none`). -/
structure SyncParamsObj where
  collectionName : String
  remoteDbUrl : Option String
  localDbName : Option String
  remoteDbName : Option String
  localDb : Option Db
  remoteDb : Option Db
deriving DecidableEq, Repr

/-- JavaScript truthiness of a possibly-absent string field:
`undefined` and the empty string are falsy, every other string is truthy. -/
def truthyStr : Option String → Bool
  | none => false
  | some s => !(s == "")

/-- `getSourceAndTargetDbConnections` (`src/unnamed/part_002`): if
`coreParams.remoteDbUrl` is truthy, open the destination at
`LOCAL_DB_URI`/`localDbName` and the source at `remoteDbUrl`/`remoteDbName`;
otherwise return the `localDb` and `remoteDb` fields of the input as they
are (which are `undefined` when absent). -/
def getSourceAndTargetDbConnections (syncParams : SyncParamsObj) :
    Option Db × Option Db :=
  if truthyStr syncParams.remoteDbUrl then
    (some (connectToMongoDB LOCAL_DB_URI syncParams.localDbName),
     some (connectToMongoDB (syncParams.remoteDbUrl.getD "") syncParams.remoteDbName))
  else
    (syncParams.localDb, syncParams.remoteDb)

/-- `getCollectionsToCreate` (`src/src/lib/services/databases.ts`, lines
197–203), pure core: after listing collection names on the remote and the
local database, the result is
`remoteCollections.filter(r => !localCollections.includes(r))`. -/
def getCollectionsToCreate (remoteCollections localCollections : List String) :
    List String :=
  remoteCollections.filter (fun remoteCollection => !(localCollections.contains remoteCollection))

/-- C8: the provisioning diff `getCollectionsToCreate` returns exactly the
names present in the source (remote) database and absent from the
destination (local) database — a plain set difference over literal string
equality, with no case-folding or other normalization — and in particular
for source `{A, B, C}` and destination `{B}` the result is exactly
`{A, C}`. -/
theorem getCollectionsToCreate_is_set_difference :
    (∀ (remoteCollections localCollections : List String) (x : String),
        x ∈ getCollectionsToCreate remoteCollections localCollections ↔
          (x ∈ remoteCollections ∧ x ∉ localCollections)) ∧
    getCollectionsToCreate ["A", "B", "C"] ["B"] = ["A", "C"] := by
  constructor
  · intro remoteCollections localCollections x
    simp [getCollectionsToCreate, List.mem_filter]
  · decide

/-- C6: the Store Handle Resolver is a pass-through on inputs that already
carry resolved handles (the `IPopulatedSyncParams` shape, which has no
`remoteDbUrl` field): it returns exactly the given `localDb` and `remoteDb`
handles; on inputs carrying raw coordinates (the `ICoreSyncParams` shape,
with a non-empty `remoteDbUrl`) it opens the destination at the fixed
process-wide `LOCAL_DB_URI` together with the given local database name, and
the source at the given remote URI and remote database name. -/
theorem getSourceAndTargetDbConnections_two_modes (syncParams : SyncParamsObj) :
    (syncParams.remoteDbUrl = none →
      getSourceAndTargetDbConnections syncParams =
        (syncParams.localDb, syncParams.remoteDb)) ∧
    (∀ u : String, syncParams.remoteDbUrl = some u → u ≠ "" →
      getSourceAndTargetDbConnections syncParams =
        (some (connectToMongoDB LOCAL_DB_URI syncParams.localDbName),
         some (connectToMongoDB u syncParams.remoteDbName))) := by
  constructor
  · intro h
    simp [getSourceAndTargetDbConnections, truthyStr, h]
  · intro u hu hne
    simp [getSourceAndTargetDbConnections, truthyStr, hu, hne]

theorem getSourceAndTargetDbConnections_two_modes_witness :
    getSourceAndTargetDbConnections
        { collectionName := "users", remoteDbUrl := none,
          localDbName := none, remoteDbName := none,
          localDb := some { uri := "h1", dbName := some "a" },
          remoteDb := some { uri := "h2", dbName := some "b" } } =
      (some { uri := "h1", dbName := some "a" },
       some { uri := "h2", dbName := some "b" }) ∧
    getSourceAndTargetDbConnections
        { collectionName := "users", remoteDbUrl := some "mongodb://remote:27017",
          localDbName := some "localdb", remoteDbName := some "remotedb",
          localDb := none, remoteDb := none } =
      (some { uri := LOCAL_DB_URI, dbName := some "localdb" },
       some { uri := "mongodb://remote:27017", dbName := some "remotedb" }) :=
  ⟨(getSourceAndTargetDbConnections_two_modes _).1 rfl,
   (getSourceAndTargetDbConnections_two_modes _).2 "mongodb://remote:27017" rfl
     (by decide)⟩

/-- C9: the resolver discriminates the union by truthiness of `remoteDbUrl`,
not by a tag: on any input whose `remoteDbUrl` is present but equal to the
empty string it takes the pre-resolved-handles branch and returns whatever
`localDb` and `remoteDb` fields the input carries (`none`, i.e. `undefined`,
when absent), instead of opening connections from the raw coordinates or
raising a `ConnectionError`. -/
theorem getSourceAndTargetDbConnections_empty_url_passthrough
    (syncParams : SyncParamsObj) (h : syncParams.remoteDbUrl = some "") :
    getSourceAndTargetDbConnections syncParams =
      (syncParams.localDb, syncParams.remoteDb) := by
  simp [getSourceAndTargetDbConnections, truthyStr, h]

theorem getSourceAndTargetDbConnections_empty_url_passthrough_witness :
    getSourceAndTargetDbConnections
        { collectionName := "users", remoteDbUrl := some "",
          localDbName := some "localdb", remoteDbName := some "remotedb",
          localDb := none, remoteDb := none } =
      ((none : Option Db), (none : Option Db)) :=
  getSourceAndTargetDbConnections_empty_url_passthrough _ rfl

/-! ### Source and destination collection state

`syncDataToLocalDatabase` drives a MongoDB cursor and an unordered bulk op;
here the store objects it manipulates are modelled as pure data.  Documents
are a primary key `_id` plus a field map; a collection's document store is
the list of its documents in insertion order. -/

abbrev FieldName := String

/-- A document: its primary key `_id` plus its remaining fields, the field
map represented canonically as an association list. -/
structure Doc where
  _id : Nat
  fields : List (FieldName × Nat)
deriving DecidableEq, Repr

/-- Modelled from the MongoDB update contract the code relies on:
`updateOne({ $set: doc })` writes every field of `doc` and leaves the other
stored fields in place.  Resulting field map: `upd`'s bindings override
`old`'s. -/
def setFields (old upd : List (FieldName × Nat)) : List (FieldName × Nat) :=
  upd ++ old.filter (fun f => (upd.lookup f.1).isNone)

/-- Modelled from the MongoDB upsert contract the code relies on:
`bulkOperations.find({ _id: doc._id }).upsert().updateOne({ $set: doc })`
(`src/unnamed/part_002`, line 71) updates the stored document carrying that
`_id` in place when one exists, and otherwise inserts the document at the
end of the store. -/
def upsertOne (store : List Doc) (d : Doc) : List Doc :=
  match store with
  | [] => [d]
  | e :: rest =>
      if e._id = d._id then
        { _id := e._id, fields := setFields e.fields d.fields } :: rest
      else
        e :: upsertOne rest d

/-- The state of the source (remote) collection as the engine reads it:
the documents the `find({})` cursor yields in order, the number
`countDocuments({})` returns at scan start (a point-in-time snapshot that
may diverge from the cursor when the source mutates mid-scan), the active
validation ruleset from `options().validator` if any, and the index list
from `listIndexes()` as (name, definition) pairs. -/
structure RemoteColl where
  docs : List Doc
  countSnapshot : Nat
  validator : Option Nat
  indexes : List (String × Nat)
deriving DecidableEq, Repr

/-- The state of the destination (local) collection: its document store,
its active validation ruleset (if any), and its index set as
(name, definition) pairs. -/
structure LocalColl where
  docs : List Doc
  validator : Option Nat
  indexes : List (String × Nat)
deriving DecidableEq, Repr

/-- Errors the engine surfaces (rejected promises of the driver calls). -/
inductive SyncError
  | connectionError
  | batchExecutionError
  | schemaError
  | indexConflictError
deriving DecidableEq, Repr

/-- `syncDataToLocalDatabase` (`src/unnamed/part_002`, lines 58–85),
data-plane view: every cursor document is appended to the bulk as an
upsert-by-`_id`, and each queued operation is eventually executed against
the destination (the batch boundaries chop this sequence into consecutive
runs, which does not change the final store, a fold of the same upserts in
cursor order); the function returns `totalCount`, the `countDocuments({})`
snapshot taken at the start of the scan. -/
def syncDataToLocalDatabase (remote : RemoteColl) (localDocs : List Doc) :
    List Doc × Nat :=
  (remote.docs.foldl upsertOne localDocs, remote.countSnapshot)

/-- The `thisCount` progress counter of `syncDataToLocalDatabase`: per
cursor document the code logs `++thisCount` (pre-increment), so the report
for a document is the counter value after counting it. -/
def progressReports : List Doc → Nat → List Nat
  | [], _ => []
  | _ :: rest, thisCount => (thisCount + 1) :: progressReports rest (thisCount + 1)

/-- All `processed` values logged by one `syncDataToLocalDatabase` run
(`Upserting -> <collection>: <processed>/<total> ~ <percent>%`), with the
counter starting at 0. -/
def copyProgressLog (remote : RemoteColl) : List Nat :=
  progressReports remote.docs 0

/-- `syncSchemaToLocalDatabase` (`src/unnamed/part_002`, lines 93–108):
reads `options().validator` of the source collection; when it is present
(truthy) issues `collMod` with exactly that validator against the
destination, and otherwise performs no destination operation at all. -/
def syncSchemaToLocalDatabase (remote : RemoteColl) (l : LocalColl) : LocalColl :=
  match remote.validator with
  | some validationInfo => { l with validator := some validationInfo }
  | none => l

/-- Modelled from the MongoDB `createIndexes` contract as the engine uses it
(spec §4.4): creating an index whose name already exists with an identical
definition is a no-op; an existing name with a different definition is an
`IndexConflictError`; a fresh name is appended to the destination's index
set. -/
def createIndexes (dest : List (String × Nat)) :
    List (String × Nat) → Except SyncError (List (String × Nat))
  | [] => .ok dest
  | i :: rest =>
      match dest.lookup i.1 with
      | some d => if d = i.2 then createIndexes dest rest else .error .indexConflictError
      | none => createIndexes (dest ++ [i]) rest

/-- `syncIndexesToLocalDatabase` (`src/unnamed/part_002`, lines 115–122):
lists all source indexes and creates them on the destination collection. -/
def syncIndexesToLocalDatabase (remote : RemoteColl) (l : LocalColl) :
    Except SyncError LocalColl :=
  match createIndexes l.indexes remote.indexes with
  | .error e => .error e
  | .ok idx => .ok { l with indexes := idx }

/-- `syncCollectionData` (`src/unnamed/part_002`, lines 155–162): copy the
documents, then the schema, then the indexes, and return the record count
produced by the document-copy step. -/
def syncCollectionData (remote : RemoteColl) (l : LocalColl) :
    Except SyncError (LocalColl × Nat) :=
  let copied := syncDataToLocalDatabase remote l.docs
  let afterSchema := syncSchemaToLocalDatabase remote { l with docs := copied.1 }
  match syncIndexesToLocalDatabase remote afterSchema with
  | .error e => .error e
  | .ok l3 => .ok (l3, copied.2)

theorem progressReports_length (docs : List Doc) (c : Nat) :
    (progressReports docs c).length = docs.length := by
  induction docs generalizing c with
  | nil => rfl
  | cons d rest ih => simp [progressReports, ih]

theorem progressReports_get (docs : List Doc) (c i : Nat)
    (hi : i < (progressReports docs c).length) :
    (progressReports docs c).get ⟨i, hi⟩ = c + i + 1 := by
  induction docs generalizing c i with
  | nil => simp [progressReports] at hi
  | cons d rest ih =>
    cases i with
    | zero => rfl
    | succ j =>
      have hi' : j + 1 < ((c + 1) :: progressReports rest (c + 1)).length := hi
      have hj : j < (progressReports rest (c + 1)).length := Nat.lt_of_succ_lt_succ hi'
      have step : (progressReports (d :: rest) c).get ⟨j + 1, hi⟩ =
          (progressReports rest (c + 1)).get ⟨j, hj⟩ := rfl
      rw [step, ih (c + 1) j hj]
      omega

/-- C2: `syncDataToLocalDatabase` returns the total document count obtained
once at the start of the scan via `countDocuments`, whatever documents the
cursor actually visited, and `syncCollectionData` passes this same number
through as its record count. -/
theorem syncDataToLocalDatabase_returns_countSnapshot
    (remote : RemoteColl) (localDocs : List Doc) (l lFinal : LocalColl) (n : Nat) :
    (syncDataToLocalDatabase remote localDocs).2 = remote.countSnapshot ∧
    (syncCollectionData remote l = .ok (lFinal, n) → n = remote.countSnapshot) := by
  refine ⟨rfl, ?_⟩
  intro h
  simp only [syncCollectionData] at h
  split at h
  · exact absurd h (by simp)
  · rw [Except.ok.injEq, Prod.mk.injEq] at h
    exact h.2.symm

theorem syncDataToLocalDatabase_returns_countSnapshot_witness :
    (syncDataToLocalDatabase
        { docs := [{ _id := 1, fields := [("a", 5)] }], countSnapshot := 1,
          validator := some 2, indexes := [("i1", 3)] } []).2 = 1 ∧ (1 : Nat) = 1 :=
  ⟨(syncDataToLocalDatabase_returns_countSnapshot
      { docs := [{ _id := 1, fields := [("a", 5)] }], countSnapshot := 1,
        validator := some 2, indexes := [("i1", 3)] } []
      { docs := [], validator := none, indexes := [] }
      { docs := [{ _id := 1, fields := [("a", 5)] }], validator := some 2,
        indexes := [("i1", 3)] } 1).1,
   (syncDataToLocalDatabase_returns_countSnapshot
      { docs := [{ _id := 1, fields := [("a", 5)] }], countSnapshot := 1,
        validator := some 2, indexes := [("i1", 3)] } []
      { docs := [], validator := none, indexes := [] }
      { docs := [{ _id := 1, fields := [("a", 5)] }], validator := some 2,
        indexes := [("i1", 3)] } 1).2 rfl⟩

/-- C3: within one `syncDataToLocalDatabase` invocation over a quiescent
source (the `countDocuments` snapshot equals the number of documents the
cursor yields), the logged `processed` counter values are one per document
visited with value `i + 1` at the `i`-th document, hence non-decreasing
across consecutive reports, and never exceed the total count snapshotted at
scan start. -/
theorem copyProgressLog_spec (remote : RemoteColl)
    (hQuiescent : remote.countSnapshot = remote.docs.length) :
    (copyProgressLog remote).length = remote.docs.length ∧
    (∀ i (hi : i < (copyProgressLog remote).length),
        (copyProgressLog remote).get ⟨i, hi⟩ = i + 1) ∧
    (∀ i j (hi : i < (copyProgressLog remote).length)
        (hj : j < (copyProgressLog remote).length), i ≤ j →
        (copyProgressLog remote).get ⟨i, hi⟩ ≤ (copyProgressLog remote).get ⟨j, hj⟩) ∧
    (∀ x ∈ copyProgressLog remote, x ≤ remote.countSnapshot) := by
  have hlen : (copyProgressLog remote).length = remote.docs.length :=
    progressReports_length remote.docs 0
  have hget : ∀ i (hi : i < (copyProgressLog remote).length),
      (copyProgressLog remote).get ⟨i, hi⟩ = i + 1 := by
    intro i hi
    have := progressReports_get remote.docs 0 i hi
    simpa [copyProgressLog] using this
  refine ⟨hlen, hget, ?_, ?_⟩
  · intro i j hi hj hij
    rw [hget i hi, hget j hj]
    omega
  · intro x hx
    obtain ⟨⟨i, hi⟩, rfl⟩ := List.mem_iff_get.mp hx
    rw [hget i hi]
    omega

theorem copyProgressLog_spec_witness :
    (copyProgressLog
        { docs := [{ _id := 1, fields := [] }, { _id := 2, fields := [] }],
          countSnapshot := 2, validator := none, indexes := [] }).length = 2 :=
  (copyProgressLog_spec
      { docs := [{ _id := 1, fields := [] }, { _id := 2, fields := [] }],
        countSnapshot := 2, validator := none, indexes := [] } rfl).1

/-- C7: when the source collection has no active validation ruleset,
`syncSchemaToLocalDatabase` leaves the destination collection entirely
unchanged (its existing ruleset included — no destination modification is
issued); when the source does have one, it is written to the destination as
a full replacement of whatever ruleset was there, never a merge. -/
theorem syncSchemaToLocalDatabase_asymmetry (remote : RemoteColl) (l : LocalColl) :
    (remote.validator = none → syncSchemaToLocalDatabase remote l = l) ∧
    (∀ v, remote.validator = some v →
        syncSchemaToLocalDatabase remote l =
          { docs := l.docs, validator := some v, indexes := l.indexes }) := by
  constructor
  · intro h
    simp [syncSchemaToLocalDatabase, h]
  · intro v h
    simp [syncSchemaToLocalDatabase, h]

theorem syncSchemaToLocalDatabase_asymmetry_witness :
    syncSchemaToLocalDatabase
        { docs := [], countSnapshot := 0, validator := none, indexes := [] }
        { docs := [], validator := some 7, indexes := [("i", 1)] } =
      { docs := [], validator := some 7, indexes := [("i", 1)] } ∧
    syncSchemaToLocalDatabase
        { docs := [], countSnapshot := 0, validator := some 5, indexes := [] }
        { docs := [], validator := some 7, indexes := [("i", 1)] } =
      { docs := [], validator := some 5, indexes := [("i", 1)] } :=
  ⟨(syncSchemaToLocalDatabase_asymmetry
      { docs := [], countSnapshot := 0, validator := none, indexes := [] }
      { docs := [], validator := some 7, indexes := [("i", 1)] }).1 rfl,
   (syncSchemaToLocalDatabase_asymmetry
      { docs := [], countSnapshot := 0, validator := some 5, indexes := [] }
      { docs := [], validator := some 7, indexes := [("i", 1)] }).2 5 rfl⟩

/-! ### Idempotence of the copy pipeline -/

theorem lookup_isSome_of_mem {l : List (FieldName × Nat)} {f : FieldName × Nat}
    (h : f ∈ l) : (l.lookup f.1).isSome = true := by
  induction l with
  | nil => cases h
  | cons a t ih =>
    obtain ⟨k, v⟩ := a
    rw [List.mem_cons] at h
    by_cases hk : (f.1 == k) = true
    · simp [List.lookup, hk]
    · rcases h with rfl | h
      · simp at hk
      · simp [List.lookup, hk, ih h]

theorem filter_absent_self (upd : List (FieldName × Nat)) :
    upd.filter (fun f => (upd.lookup f.1).isNone) = [] := by
  rw [List.filter_eq_nil_iff]
  intro f hf
  have h1 := lookup_isSome_of_mem hf
  cases h2 : upd.lookup f.1 with
  | none => rw [h2] at h1; cases h1
  | some v => simp [h2]

theorem filter_self_idem (p : FieldName × Nat → Bool) (l : List (FieldName × Nat)) :
    (l.filter p).filter p = l.filter p := by
  induction l with
  | nil => rfl
  | cons a t ih =>
    by_cases h : p a = true
    · simp [List.filter_cons, h, ih]
    · simp [List.filter_cons, h, ih]

theorem setFields_self (fields : List (FieldName × Nat)) :
    setFields fields fields = fields := by
  simp [setFields, filter_absent_self]

theorem setFields_idem (old upd : List (FieldName × Nat)) :
    setFields (setFields old upd) upd = setFields old upd := by
  unfold setFields
  rw [List.filter_append, filter_absent_self, List.nil_append, filter_self_idem]

theorem upsertOne_idem (store : List Doc) (d : Doc) :
    upsertOne (upsertOne store d) d = upsertOne store d := by
  induction store with
  | nil =>
    show upsertOne [d] d = [d]
    simp [upsertOne, setFields_self]
  | cons e rest ih =>
    by_cases h : e._id = d._id
    · simp [upsertOne, h, setFields_idem]
    · simp [upsertOne, h, ih]

theorem upsertOne_preserved (s : List Doc) (d e : Doc) (hne : e._id ≠ d._id)
    (habs : upsertOne s d = s) : upsertOne (upsertOne s e) d = upsertOne s e := by
  induction s with
  | nil => cases habs
  | cons f rest ih =>
    obtain ⟨fid, ffl⟩ := f
    by_cases hf : fid = e._id
    · have hfd : fid ≠ d._id := by rw [hf]; exact hne
      have habs' : upsertOne rest d = rest := by
        simpa [upsertOne, hfd] using habs
      simp [upsertOne, hf, hfd, hne, habs']
    · by_cases hfd : fid = d._id
      · have hset : setFields ffl d.fields = ffl := by
          simpa [upsertOne, hfd] using habs
        simp [upsertOne, hf, hfd, hset, Ne.symm hne]
      · have habs' : upsertOne rest d = rest := by
          simpa [upsertOne, hfd] using habs
        simp [upsertOne, hf, hfd, ih habs']

theorem foldl_upsert_preserved (r : List Doc) (s : List Doc) (d : Doc)
    (hd : ∀ e ∈ r, e._id ≠ d._id) (habs : upsertOne s d = s) :
    upsertOne (r.foldl upsertOne s) d = r.foldl upsertOne s := by
  induction r generalizing s with
  | nil => exact habs
  | cons e rest ih =>
    simp only [List.foldl_cons]
    exact ih (upsertOne s e)
      (fun x hx => hd x (List.mem_cons_of_mem e hx))
      (upsertOne_preserved s d e (hd e (List.mem_cons_self e rest)) habs)

theorem foldl_upsert_idem (r : List Doc) (s : List Doc)
    (hids : (r.map Doc._id).Nodup) :
    r.foldl upsertOne (r.foldl upsertOne s) = r.foldl upsertOne s := by
  induction r generalizing s with
  | nil => rfl
  | cons d rest ih =>
    rw [List.map_cons, List.nodup_cons] at hids
    have hd : ∀ e ∈ rest, e._id ≠ d._id := by
      intro e he heq
      exact hids.1 (heq ▸ List.mem_map_of_mem Doc._id he)
    simp only [List.foldl_cons]
    rw [foldl_upsert_preserved rest (upsertOne s d) d hd (upsertOne_idem s d)]
    exact ih (upsertOne s d) hids.2

theorem lookup_append_left {l1 l2 : List (String × Nat)} {a : String} {v : Nat}
    (h : l1.lookup a = some v) : (l1 ++ l2).lookup a = some v := by
  induction l1 with
  | nil => cases h
  | cons p t ih =>
    obtain ⟨k, b⟩ := p
    cases hk : a == k with
    | true =>
      simp only [List.cons_append, List.lookup, hk] at h ⊢
      exact h
    | false =>
      simp only [List.cons_append, List.lookup, hk] at h ⊢
      exact ih h

theorem lookup_append_none {l1 l2 : List (String × Nat)} {a : String}
    (h : l1.lookup a = none) : (l1 ++ l2).lookup a = l2.lookup a := by
  induction l1 with
  | nil => rfl
  | cons p t ih =>
    obtain ⟨k, b⟩ := p
    cases hk : a == k with
    | true =>
      simp only [List.lookup, hk] at h
      exact Option.noConfusion h
    | false =>
      simp only [List.cons_append, List.lookup, hk] at h ⊢
      exact ih h

theorem createIndexes_lookup_mono (idxs : List (String × Nat))
    (dest dest' : List (String × Nat)) (h : createIndexes dest idxs = .ok dest')
    (a : String) (v : Nat) (hl : dest.lookup a = some v) :
    dest'.lookup a = some v := by
  induction idxs generalizing dest with
  | nil =>
    rw [createIndexes, Except.ok.injEq] at h
    rw [← h]
    exact hl
  | cons i rest ih =>
    cases hL : dest.lookup i.1 with
    | some d0 =>
      by_cases hd : d0 = i.2
      · simp only [createIndexes, hL, if_pos hd] at h
        exact ih dest h hl
      · simp only [createIndexes, hL, if_neg hd] at h
        cases h
    | none =>
      simp only [createIndexes, hL] at h
      exact ih (dest ++ [i]) h (lookup_append_left hl)

theorem createIndexes_idem (idxs : List (String × Nat))
    (dest dest' : List (String × Nat)) (h : createIndexes dest idxs = .ok dest') :
    createIndexes dest' idxs = .ok dest' := by
  induction idxs generalizing dest with
  | nil =>
    rw [createIndexes, Except.ok.injEq] at h
    rw [← h, createIndexes]
  | cons i rest ih =>
    cases hL : dest.lookup i.1 with
    | some d0 =>
      by_cases hd : d0 = i.2
      · simp only [createIndexes, hL, if_pos hd] at h
        have hl' : dest'.lookup i.1 = some i.2 :=
          createIndexes_lookup_mono rest dest dest' h i.1 i.2 (hd ▸ hL)
        simp only [createIndexes, hl', if_pos rfl]
        exact ih dest h
      · simp only [createIndexes, hL, if_neg hd] at h
        cases h
    | none =>
      simp only [createIndexes, hL] at h
      have hl1 : (dest ++ [i]).lookup i.1 = some i.2 := by
        rw [lookup_append_none hL]
        simp [List.lookup]
      have hl' : dest'.lookup i.1 = some i.2 :=
        createIndexes_lookup_mono rest (dest ++ [i]) dest' h i.1 i.2 hl1
      simp only [createIndexes, hl', if_pos rfl]
      exact ih (dest ++ [i]) h

theorem syncIndexesToLocalDatabase_ok (remote : RemoteColl) (l l' : LocalColl)
    (h : syncIndexesToLocalDatabase remote l = .ok l') :
    l'.docs = l.docs ∧ l'.validator = l.validator ∧
      createIndexes l.indexes remote.indexes = .ok l'.indexes := by
  cases hC : createIndexes l.indexes remote.indexes with
  | error e =>
    simp only [syncIndexesToLocalDatabase, hC] at h
    exact Except.noConfusion h
  | ok idx =>
    simp only [syncIndexesToLocalDatabase, hC, Except.ok.injEq] at h
    rw [← h]
    exact ⟨rfl, rfl, rfl⟩

theorem syncIndexesToLocalDatabase_idem (remote : RemoteColl) (l l' : LocalColl)
    (h : syncIndexesToLocalDatabase remote l = .ok l') :
    syncIndexesToLocalDatabase remote l' = .ok l' := by
  obtain ⟨hdocs, hval, hidx⟩ := syncIndexesToLocalDatabase_ok remote l l' h
  rw [syncIndexesToLocalDatabase, createIndexes_idem remote.indexes l.indexes l'.indexes hidx]

theorem syncSchemaToLocalDatabase_docs (remote : RemoteColl) (l : LocalColl) :
    (syncSchemaToLocalDatabase remote l).docs = l.docs := by
  cases h : remote.validator <;> simp [syncSchemaToLocalDatabase, h]

theorem syncSchemaToLocalDatabase_absorb (remote : RemoteColl) (x y : LocalColl)
    (hv : y.validator = (syncSchemaToLocalDatabase remote x).validator) :
    syncSchemaToLocalDatabase remote y = y := by
  cases h : remote.validator with
  | none => simp only [syncSchemaToLocalDatabase, h]
  | some v =>
    have hv' : y.validator = some v := by
      rw [hv]
      simp only [syncSchemaToLocalDatabase, h]
    simp only [syncSchemaToLocalDatabase, h]
    rw [← hv']

/-- C4: running `syncCollectionData` twice on unchanged source data (whose
documents carry pairwise distinct `_id` keys) leaves the destination
collection's document store, validation ruleset and index set exactly as
after one run, and reports the same record count: upsert-by-`_id` absorbs a
second pass, re-applying the validator replaces it by itself, and
re-creating an index with an identical name and definition is a no-op. -/
theorem syncCollectionData_idempotent (remote : RemoteColl) (l l' : LocalColl)
    (n : Nat) (hids : (remote.docs.map Doc._id).Nodup)
    (h : syncCollectionData remote l = .ok (l', n)) :
    syncCollectionData remote l' = .ok (l', n) := by
  simp only [syncCollectionData, syncDataToLocalDatabase] at h ⊢
  cases hIx : syncIndexesToLocalDatabase remote
      (syncSchemaToLocalDatabase remote
        { l with docs := remote.docs.foldl upsertOne l.docs }) with
  | error e =>
    rw [hIx] at h
    exact Except.noConfusion h
  | ok l3 =>
    rw [hIx] at h
    have h' : l3 = l' ∧ remote.countSnapshot = n := by
      have := h
      rw [Except.ok.injEq, Prod.mk.injEq] at this
      exact this
    obtain ⟨rfl, rfl⟩ := h'
    have hdocs3 : l3.docs = remote.docs.foldl upsertOne l.docs := by
      have h0 := (syncIndexesToLocalDatabase_ok _ _ _ hIx).1
      rw [syncSchemaToLocalDatabase_docs] at h0
      exact h0
    have hval3 := (syncIndexesToLocalDatabase_ok _ _ _ hIx).2.1
    have hD2 : remote.docs.foldl upsertOne l3.docs = l3.docs := by
      rw [hdocs3]
      exact foldl_upsert_idem remote.docs l.docs hids
    have hstate : ({ l3 with docs := remote.docs.foldl upsertOne l3.docs } : LocalColl)
        = l3 := by
      rw [hD2]
    rw [hstate, syncSchemaToLocalDatabase_absorb remote
        { l with docs := remote.docs.foldl upsertOne l.docs } l3 hval3,
      syncIndexesToLocalDatabase_idem remote _ _ hIx]

theorem syncCollectionData_idempotent_witness :
    syncCollectionData
        { docs := [{ _id := 1, fields := [("a", 2)] }], countSnapshot := 1,
          validator := some 3, indexes := [("i", 4)] }
        { docs := [{ _id := 1, fields := [("a", 2)] }], validator := some 3,
          indexes := [("i", 4)] } =
      .ok ({ docs := [{ _id := 1, fields := [("a", 2)] }], validator := some 3,
             indexes := [("i", 4)] }, 1) :=
  syncCollectionData_idempotent
    { docs := [{ _id := 1, fields := [("a", 2)] }], countSnapshot := 1,
      validator := some 3, indexes := [("i", 4)] }
    { docs := [], validator := none, indexes := [] }
    { docs := [{ _id := 1, fields := [("a", 2)] }], validator := some 3,
      indexes := [("i", 4)] } 1 (by simp) rfl

/-! ### Batch flush accounting of the Document Copier -/

/-- Modelled from the mongodb driver (external to this repository): an
unordered bulk op groups its appended operations into internal command
batches of up to `maxWriteBatchSize` same-type operations each, and its
`batches` property lists those command batches, so after `ops` appended
update operations `batches.length = ⌈ops / maxWriteBatchSize⌉`.  MongoDB
servers report `maxWriteBatchSize = 100000`; the driver's conservative
fallback is 1000. -/
def driverBatchesLength (maxWriteBatchSize ops : Nat) : Nat :=
  (ops + maxWriteBatchSize - 1) / maxWriteBatchSize

/-- The batching skeleton of the copy loop of `syncDataToLocalDatabase`
(`src/unnamed/part_002`, lines 66–83): per cursor document one upsert
operation is appended to `bulkOperations`; then, if
`bulkOperations.batches.length >= batchSize`, `execute()` is awaited and a
fresh empty bulk op replaces the executed one; after the loop a final
`execute()` runs if `bulkOperations.batches.length > 0`.  Arguments:
documents still to visit, operations accumulated in the current bulk op,
op-counts of the `execute()` calls issued so far; result: the op-counts of
all `execute()` calls of the run. -/
def bulkLoop (maxWriteBatchSize batchSize : Nat) :
    Nat → Nat → List Nat → List Nat
  | 0, pending, execs =>
    if 0 < driverBatchesLength maxWriteBatchSize pending then execs ++ [pending]
    else execs
  | n + 1, pending, execs =>
    if batchSize ≤ driverBatchesLength maxWriteBatchSize (pending + 1) then
      bulkLoop maxWriteBatchSize batchSize n 0 (execs ++ [pending + 1])
    else
      bulkLoop maxWriteBatchSize batchSize n (pending + 1) execs

/-- Op-counts of the `execute()` calls one `syncDataToLocalDatabase` run
issues for a source collection of `n` documents, with the code's
`batchSize = 1000` and the given driver `maxWriteBatchSize`. -/
def executeSizes (maxWriteBatchSize n : Nat) : List Nat :=
  bulkLoop maxWriteBatchSize 1000 n 0 []

/-- The flush policy the claim describes — execute as soon as the
accumulated operation count reaches the threshold `B`, plus a final
non-empty batch — written as the same loop shape over the operation
counter, for comparison with `executeSizes`. -/
def specLoop (B : Nat) : Nat → Nat → List Nat → List Nat
  | 0, pending, execs => if 0 < pending then execs ++ [pending] else execs
  | n + 1, pending, execs =>
    if B ≤ pending + 1 then specLoop B n 0 (execs ++ [pending + 1])
    else specLoop B n (pending + 1) execs

/-- Batch execution sizes the claim requires for `n` documents and
threshold `B`. -/
def specBatchSizes (B n : Nat) : List Nat :=
  specLoop B n 0 []

set_option maxRecDepth 100000 in
/-- C1: at the spec's own end-to-end input — 2500 source documents,
threshold 1000 — the code flushes on the driver's internal command-batch
count (`bulkOperations.batches.length`), not on the accumulated operation
count, so with a real `maxWriteBatchSize` (100000 on current servers, 1000
as the driver fallback) no mid-stream flush ever fires: one `execute()` of
all 2500 queued operations is issued instead of the claimed
`⌈2500/1000⌉ = 3` executions of sizes 1000, 1000, 500. -/
theorem syncDataToLocalDatabase_batch_flush_bug :
    executeSizes 100000 2500 = [2500] ∧
    executeSizes 1000 2500 = [2500] ∧
    specBatchSizes 1000 2500 = [1000, 1000, 500] ∧
    executeSizes 100000 2500 ≠ specBatchSizes 1000 2500 := by
  refine ⟨?_, ?_, ?_, ?_⟩ <;> decide

/-! ### Step sequencing of syncCollectionData -/

/-- The four awaited steps of `syncCollectionData`. -/
inductive SyncStep
  | resolveHandles
  | copyDocuments
  | copySchema
  | copyIndexes
deriving DecidableEq, Repr

/-- Which of the four awaited driver interactions succeed in a given run. -/
structure StepOutcomes where
  resolveOk : Bool
  copyOk : Bool
  schemaOk : Bool
  indexesOk : Bool
deriving DecidableEq, Repr

/-- Control skeleton of `syncCollectionData` (`src/unnamed/part_002`,
lines 155–162): `getSourceAndTargetDbConnections`, then
`syncDataToLocalDatabase`, then `syncSchemaToLocalDatabase`, then
`syncIndexesToLocalDatabase`, each awaited to completion before the next
starts; a rejected await aborts the remaining steps and propagates; on
success the promise resolves with the record count the copy step resolved
with.  Result: the steps started, in order, and the outcome. -/
def syncCollectionDataRun (o : StepOutcomes) (records : Nat) :
    List SyncStep × Except SyncError Nat :=
  if !o.resolveOk then
    ([.resolveHandles], .error .connectionError)
  else if !o.copyOk then
    ([.resolveHandles, .copyDocuments], .error .batchExecutionError)
  else if !o.schemaOk then
    ([.resolveHandles, .copyDocuments, .copySchema], .error .schemaError)
  else if !o.indexesOk then
    ([.resolveHandles, .copyDocuments, .copySchema, .copyIndexes],
     .error .indexConflictError)
  else
    ([.resolveHandles, .copyDocuments, .copySchema, .copyIndexes], .ok records)

/-- C5: `syncCollectionData` runs handle resolution, then document copy,
then schema copy, then index copy, each awaited to completion before the
next starts; it succeeds exactly when every step does, returning the
record count from the document-copy step; and when a step fails, the
remaining steps are not executed and the error propagates to the caller. -/
theorem syncCollectionDataRun_sequencing (o : StepOutcomes) (records : Nat) :
    ((syncCollectionDataRun o records).2 = .ok records ↔
      o.resolveOk = true ∧ o.copyOk = true ∧ o.schemaOk = true ∧
        o.indexesOk = true) ∧
    (o.resolveOk = false →
      syncCollectionDataRun o records =
        ([.resolveHandles], .error .connectionError)) ∧
    (o.resolveOk = true → o.copyOk = false →
      syncCollectionDataRun o records =
        ([.resolveHandles, .copyDocuments], .error .batchExecutionError)) ∧
    (o.resolveOk = true → o.copyOk = true → o.schemaOk = false →
      syncCollectionDataRun o records =
        ([.resolveHandles, .copyDocuments, .copySchema], .error .schemaError)) ∧
    (o.resolveOk = true → o.copyOk = true → o.schemaOk = true →
      o.indexesOk = false →
      syncCollectionDataRun o records =
        ([.resolveHandles, .copyDocuments, .copySchema, .copyIndexes],
         .error .indexConflictError)) ∧
    (o.resolveOk = true → o.copyOk = true → o.schemaOk = true →
      o.indexesOk = true →
      syncCollectionDataRun o records =
        ([.resolveHandles, .copyDocuments, .copySchema, .copyIndexes],
         .ok records)) := by
  obtain ⟨r, c, s, i⟩ := o
  cases r <;> cases c <;> cases s <;> cases i <;>
    simp [syncCollectionDataRun]

theorem syncCollectionDataRun_sequencing_witness :
    syncCollectionDataRun
        { resolveOk := true, copyOk := true, schemaOk := true, indexesOk := true } 7 =
      ([.resolveHandles, .copyDocuments, .copySchema, .copyIndexes], .ok 7) ∧
    syncCollectionDataRun
        { resolveOk := true, copyOk := false, schemaOk := true, indexesOk := true } 7 =
      ([.resolveHandles, .copyDocuments], .error .batchExecutionError) :=
  ⟨(syncCollectionDataRun_sequencing
      { resolveOk := true, copyOk := true, schemaOk := true, indexesOk := true }
      7).2.2.2.2.2 rfl rfl rfl rfl,
   (syncCollectionDataRun_sequencing
      { resolveOk := true, copyOk := false, schemaOk := true, indexesOk := true }
      7).2.2.1 rfl rfl⟩

/-! ### syncAllRecords of the Collection service -/

/-- The observable outcome of one `CollectionServiceApi.syncAllRecords`
call: what its returned promise settles with, and whether the un-awaited
`updateLastSync` call was fired. -/
structure SyncAllOutcome where
  result : Except SyncError Nat
  updateTriggered : Bool
deriving Repr

/-- `CollectionServiceApi.syncAllRecords` (`src/unnamed/part_007`, lines
132–139): awaits `syncCollectionData` for the resolved target, then calls
`this.updateLastSync(collectionId)` without `await` — a floating promise
whose later success or failure the method never consults — and returns the
record count.  `syncOutcome` is what the awaited `syncCollectionData`
promise settles with; `updateOutcome` is what the floating `updateLastSync`
promise later settles with. -/
def syncAllRecords (syncOutcome : Except SyncError Nat)
    (updateOutcome : Except SyncError Bool) : SyncAllOutcome :=
  match syncOutcome with
  | .error e => { result := .error e, updateTriggered := false }
  | .ok records => { result := .ok records, updateTriggered := true }

/-- C10: `syncAllRecords` returns exactly the record count produced by
`syncCollectionData`, and it does not await the last-sync-timestamp update
it triggers: its result is the same for every outcome of that update, so a
failure of the update is not observable in the result of
`syncAllRecords`. -/
theorem syncAllRecords_result_independent_of_update
    (records : Nat) (u u1 u2 : Except SyncError Bool)
    (syncOutcome : Except SyncError Nat) :
    (syncAllRecords (.ok records) u).result = .ok records ∧
    (syncAllRecords (.ok records) u).updateTriggered = true ∧
    syncAllRecords syncOutcome u1 = syncAllRecords syncOutcome u2 :=
  ⟨rfl, rfl, rfl⟩

end LocalDbSync
